import Mathlib

/-!
Shallow embedding of the extraction/fallback pipeline of
`naver_realtime_scraper.py`, together with proofs about the
behaviour of its text normaliser, link normaliser, article
extractor, fallback keyword deriver and collector.
-/

set_option maxRecDepth 8000

namespace Scraper

/-- Program strings are modelled as lists of characters. -/
abbrev Str := List Char

/-- Whitespace class used by Python's regex \s, str.strip and str.split
(restricted to the ASCII whitespace characters). -/
def pySpace (c : Char) : Bool :=
  c == ' ' || c == '\t' || c == '\n' || c == '\r' || c == Char.ofNat 11 || c == Char.ofNat 12

/-- Worker for re.sub of whitespace runs: the flag records whether we are
inside a whitespace run whose single replacement space was already emitted. -/
def subWsRunsGo : Bool → Str → Str
  | _, [] => []
  | inRun, c :: cs =>
    if pySpace c then
      if inRun then subWsRunsGo true cs
      else ' ' :: subWsRunsGo true cs
    else c :: subWsRunsGo false cs

/-- Embeds the substitution step of line 57 of the source:
every maximal whitespace run becomes a single space. -/
def subWsRuns (s : Str) : Str := subWsRunsGo false s

/-- Python str.strip(): drop whitespace from both ends. -/
def pyStrip (s : Str) : Str :=
  ((s.dropWhile pySpace).reverse.dropWhile pySpace).reverse

/-- The normalisation applied in unique_top (line 57) and to scraped
titles (line 155): collapse whitespace runs, then trim. -/
def normalizeWs (s : Str) : Str := pyStrip (subWsRuns s)

/-- First-occurrence deduplication of a list by a key, skipping keys already
in `seen`; used to state the order/uniqueness facts about the code's
seen-set loops. -/
def keyDedupFrom {α β : Type} [DecidableEq β] (k : α → β) : List β → List α → List α
  | _, [] => []
  | seen, a :: l =>
    if k a ∈ seen then keyDedupFrom k seen l
    else a :: keyDedupFrom k (k a :: seen) l

/-- Loop of unique_top (source lines 54-64): out is the accumulated output,
seen the set of already emitted normalised values. -/
def uniqueTopGo : Nat → List Str → List Str → List Str → List Str
  | _, out, _, [] => out
  | limit, out, seen, v :: vs =>
    if normalizeWs v = [] ∨ normalizeWs v ∈ seen then uniqueTopGo limit out seen vs
    else if limit ≤ (out ++ [normalizeWs v]).length then out ++ [normalizeWs v]
    else uniqueTopGo limit (out ++ [normalizeWs v]) (normalizeWs v :: seen) vs

/-- unique_top (source lines 53-64). -/
def unique_top (values : List Str) (limit : Nat) : List Str :=
  uniqueTopGo limit [] [] values

/-- Deduplicating normalisation stream underlying unique_top, without the
length cut-off: every value is normalised, empty or already seen values
are skipped. -/
def normDedupFrom : List Str → List Str → List Str
  | _, [] => []
  | seen, v :: vs =>
    if normalizeWs v = [] ∨ normalizeWs v ∈ seen then normDedupFrom seen vs
    else normalizeWs v :: normDedupFrom (normalizeWs v :: seen) vs

/-- normalize_article_href (source lines 67-76). -/
def normalize_article_href (href : Str) : Str :=
  if href = [] then []
  else if ("http://".data).isPrefixOf href || ("https://".data).isPrefixOf href then href
  else if ("//".data).isPrefixOf href then "https:".data ++ href
  else if ("/".data).isPrefixOf href then "https://news.naver.com".data ++ href
  else "https://news.naver.com/".data ++ href

/-- An anchor element as seen by the extractor: its visible text
(the value of get_text with a space separator and stripping) and its
optional href attribute. -/
structure Anchor where
  text : Str
  href : Option Str
deriving DecidableEq, Repr

/-- An article entry: the dict with keys title and href built at line 161. -/
structure Article where
  title : Str
  href : Str
deriving DecidableEq, Repr

/-- A rendered ranking page, modelled by what soup.select returns for
each CSS selector string. -/
abbrev Page := Str → List Anchor

/-- The path marker required in every article link (line 159). -/
def articleMarker : Str := "/article/".data

/-- Python's substring test needle in hay: some contiguous run of hay
equals needle. -/
def isSubstrOf (needle : Str) : Str → Bool
  | [] => needle.isPrefixOf []
  | c :: rest => needle.isPrefixOf (c :: rest) || isSubstrOf needle rest

/-- The two candidate ranking URLs (source lines 132-135). -/
def urls : List Str :=
  ["https://news.naver.com/main/ranking/popularDay.naver".data,
   "https://news.naver.com/main/ranking/popularDay.naver?mid=etc&sid1=111".data]

/-- The five CSS selectors tried on each ranking page (source lines 137-143). -/
def selectors : List Str :=
  [".rankingnews_list .list_title".data,
   ".rankingnews_list a[href*='/article/']".data,
   ".rankingnews_box a[href*='/article/']".data,
   ".rankingnews_list li a".data,
   ".rankingnews_box li a".data]

/-- Body of the inner anchor loop (source lines 154-161): normalise the
anchor text and href, and keep the entry only if the title has at least 4
characters and the href contains the article marker. -/
def processAnchor (x : Anchor) : Option Article :=
  if (normalizeWs x.text).length < 4 then none
  else if isSubstrOf articleMarker (normalize_article_href (x.href.getD [])) then
    some { title := normalizeWs x.text, href := normalize_article_href (x.href.getD []) }
  else none

/-- The raw list accumulated for one page across all selectors
(source lines 152-161). -/
def rawOf (page : Page) : List Article :=
  selectors.flatMap (fun sel => (page sel).filterMap processAnchor)

/-- The key used by the seen set of the deduplication loop (line 166). -/
def artKey (a : Article) : Str × Str := (a.title, a.href)

/-- The deduplication loop with early exit (source lines 163-172):
inl carries the accumulated list and seen set when the input is exhausted
below 10 entries, inr the returned list once 10 entries are reached. -/
def dedupScan : List Article → List (Str × Str) → List Article →
    (List Article × List (Str × Str)) ⊕ List Article
  | acc, seen, [] => Sum.inl (acc, seen)
  | acc, seen, item :: rest =>
    if artKey item ∈ seen then dedupScan acc seen rest
    else if 10 ≤ (acc ++ [item]).length then Sum.inr (acc ++ [item])
    else dedupScan (acc ++ [item]) (artKey item :: seen) rest

/-- The URL loop of scrape_popular_articles (source lines 145-176): a URL
that fails to render is skipped, a URL whose deduplication loop reaches
10 entries returns them, otherwise the partial list is discarded and the
next URL is tried; after the last URL the empty list is returned. -/
def scrapeGo (fetch : Str → Option Page) : List Str → List Article
  | [] => []
  | url :: rest =>
    match fetch url with
    | none => scrapeGo fetch rest
    | some page =>
      match dedupScan [] [] (rawOf page) with
      | Sum.inr d => d
      | Sum.inl _ => scrapeGo fetch rest

/-- scrape_popular_articles (source lines 131-176), over a rendering
oracle: fetch url is none when the navigation raises a timeout or
automation error, and otherwise gives the rendered page. -/
def scrape_popular_articles (fetch : Str → Option Page) : List Article :=
  scrapeGo fetch urls

/-- Selector loop of the specification model: the deduplicated accumulation
is threaded across the selectors of one page and stops as soon as 10
entries are reached, without looking at the remaining selectors. -/
def specSelGo (page : Page) : List Str → List Article → List (Str × Str) →
    (List Article × List (Str × Str)) ⊕ List Article
  | [], acc, seen => Sum.inl (acc, seen)
  | sel :: rest, acc, seen =>
    match dedupScan acc seen ((page sel).filterMap processAnchor) with
    | Sum.inr d => Sum.inr d
    | Sum.inl st => specSelGo page rest st.1 st.2

/-- URL loop of the specification model. -/
def specUrlGo (fetch : Str → Option Page) : List Str → List Article
  | [] => []
  | url :: rest =>
    match fetch url with
    | none => specUrlGo fetch rest
    | some page =>
      match specSelGo page selectors [] [] with
      | Sum.inr d => d
      | Sum.inl _ => specUrlGo fetch rest

/-- Specification model of the article extractor, following the wording of
the spec: per URL, accumulate matches selector by selector into a
deduplicated-by-(title, href) first-seen-order list and return it
immediately once it reaches 10 entries; never merge across URLs; return
the empty list when no URL produced 10 entries. -/
def scrapePopularArticlesSpecModel (fetch : Str → Option Page) : List Article :=
  specUrlGo fetch urls

/-- The trending-topics page as seen by scrape_realtime_keywords: a render
failure, a page without the expected table body, or the table rows, each
row giving the text of its keyword cell when that cell is present. -/
inductive TrendsPage where
  | fail
  | noTable
  | table (rows : List (Option Str))

/-- scrape_realtime_keywords (source lines 103-128): any timeout or
automation failure, missing container or missing rows yields the empty
list; otherwise the keyword cell texts go through unique_top with limit
10. -/
def scrape_realtime_keywords : TrendsPage → List Str
  | TrendsPage.fail => []
  | TrendsPage.noTable => []
  | TrendsPage.table rows =>
    if rows = [] then [] else unique_top (rows.filterMap id) 10

/-- The stop-word set of derive_keywords_from_articles (lines 180-190). -/
def stopWords : List Str :=
  ["기자".data, "뉴스".data, "오늘".data, "정부".data, "시장".data,
   "한국".data, "속보".data, "관련".data, "대한".data]

/-- Characters kept by the regex of line 193: ASCII digits and letters,
Korean syllables (U+AC00 to U+D7A3) and whitespace. -/
def allowedChar (c : Char) : Bool :=
  (48 ≤ c.toNat && c.toNat ≤ 57) || (65 ≤ c.toNat && c.toNat ≤ 90) ||
  (97 ≤ c.toNat && c.toNat ≤ 122) || (0xAC00 ≤ c.toNat && c.toNat ≤ 0xD7A3) ||
  pySpace c

/-- Python str.split(): split on whitespace runs, discarding empty pieces;
cur holds the reversed current word. -/
def splitWsAux : Str → Str → List Str
  | cur, [] => if cur = [] then [] else [cur.reverse]
  | cur, c :: cs =>
    if pySpace c then
      if cur = [] then splitWsAux [] cs else cur.reverse :: splitWsAux [] cs
    else splitWsAux (c :: cur) cs

/-- Python str.split() on whitespace. -/
def splitWs (s : Str) : List Str := splitWsAux [] s

/-- Tokenisation of one title (line 193): disallowed characters are
replaced by a space, then the result is split on whitespace. -/
def tokenizeTitle (t : Str) : List Str :=
  splitWs (t.map (fun c => if allowedChar c then c else ' '))

/-- Counter increment c[w] += 1 on an insertion-ordered association list:
the first entry with the key is incremented, a missing key is appended. -/
def bump (w : Str) : List (Str × Nat) → List (Str × Nat)
  | [] => [(w, 1)]
  | (x, n) :: rest => if x = w then (x, n + 1) :: rest else (x, n) :: bump w rest

/-- Body of the token loop (lines 194-198): strip the token and skip it
when it is shorter than 2 characters or a stop word, otherwise count it. -/
def countStep (acc : List (Str × Nat)) (w : Str) : List (Str × Nat) :=
  if (pyStrip w).length < 2 ∨ pyStrip w ∈ stopWords then acc else bump (pyStrip w) acc

/-- Stable insertion before the first entry with a count at most as large,
modelling the tie behaviour of Counter.most_common: elements with equal
counts keep their first-encountered order. -/
def insertByCount : (Str × Nat) → List (Str × Nat) → List (Str × Nat)
  | p, [] => [p]
  | p, q :: rest => if q.2 ≤ p.2 then p :: q :: rest else q :: insertByCount p rest

/-- Stable sort by descending count, modelling the sort underlying
Counter.most_common. -/
def sortByCountDesc : List (Str × Nat) → List (Str × Nat)
  | [] => []
  | p :: rest => insertByCount p (sortByCountDesc rest)

/-- derive_keywords_from_articles (source lines 179-199): count the
surviving tokens of all titles in encounter order and return the words of
the 10 most frequent entries. -/
def derive_keywords_from_articles (articles : List Article) : List Str :=
  ((sortByCountDesc
      (articles.foldl (fun acc a => (tokenizeTitle a.title).foldl countStep acc) [])).take 10).map
    Prod.fst

/-- The surviving tokens of all titles in encounter order: tokenised,
stripped, and filtered by the length and stop-word tests. -/
def survivingTokens (articles : List Article) : List Str :=
  (((articles.map (fun a => a.title)).flatMap tokenizeTitle).map pyStrip).filter
    (fun w => ¬(w.length < 2 ∨ w ∈ stopWords))

/-- The token counts in first-encounter order, stated independently of the
counting loop: each distinct surviving token paired with its number of
occurrences. -/
def tokenCounts (articles : List Article) : List (Str × Nat) :=
  (keyDedupFrom id [] (survivingTokens articles)).map
    (fun w => (w, (survivingTokens articles).count w))

/-- The automation driver, reduced to what the two scrapers observe: the
rendered trending page and the rendering oracle for ranking URLs. -/
structure Driver where
  trends : TrendsPage
  fetch : Str → Option Page

/-- Outcome of build_driver (lines 79-94 and 207-217): either the
WebDriverException message or a working driver. -/
inductive BuildOutcome where
  | fail (msg : Str)
  | ok (d : Driver)

/-- A value of the result record. -/
inductive RVal where
  | strs (l : List Str)
  | arts (l : List Article)
  | time (t : Str)
deriving DecidableEq, Repr

/-- The result record, as the ordered field list of the returned dict. -/
abbrev Record := List (Str × RVal)

/-- Field names of the result record. -/
def kUpdatedAt : Str := "updatedAt".data

/-- Field name keywords. -/
def kKeywords : Str := "keywords".data

/-- Field name articles. -/
def kArticles : Str := "articles".data

/-- Field name warnings. -/
def kWarnings : Str := "warnings".data

/-- Warning text head of the driver-start failure (line 214). -/
def wDriverFail : Str := "Chrome WebDriver 실행 실패: ".data

/-- Remediation hint warning (line 215). -/
def wDriverHint : Str := "Chrome 설치 또는 Selenium Manager 네트워크 접근 상태를 확인하세요.".data

/-- Fallback-notice warning (line 229). -/
def wFallback : Str := "실시간 검색어 원본 수집 실패로 기사 제목 기반 키워드로 대체했습니다.".data

/-- No-keywords warning (line 231). -/
def wNoKeywords : Str := "실시간 검색어를 생성하지 못했습니다.".data

/-- No-articles warning (line 234). -/
def wNoArticles : Str := "실시간 인기기사 수집에 실패했습니다.".data

/-- Keyword/warning assembly of lines 225-231: when the primary keywords
are empty, use the fallback keywords when they are not empty and append
the fallback notice, otherwise append the no-keywords warning. -/
def assembleKeywords (kws alt : List Str) : List Str × List Str :=
  if kws = [] then
    if alt = [] then ([], [wNoKeywords]) else (alt, [wFallback])
  else (kws, [])

/-- collect (source lines 202-241): on driver-start failure, the record
with empty data and the two warnings; otherwise run both extractors,
apply the fallback logic, the no-articles warning, and the truncation to
10 entries, with the caller-supplied current time. -/
def collect (b : BuildOutcome) (now : Str) : Record :=
  match b with
  | BuildOutcome.fail msg =>
    [(kKeywords, RVal.strs []), (kArticles, RVal.arts []),
     (kWarnings, RVal.strs [wDriverFail ++ msg, wDriverHint])]
  | BuildOutcome.ok d =>
    let keywords := scrape_realtime_keywords d.trends
    let articles := scrape_popular_articles d.fetch
    let p := assembleKeywords keywords (derive_keywords_from_articles articles)
    let warnings := if articles = [] then p.2 ++ [wNoArticles] else p.2
    [(kUpdatedAt, RVal.time now), (kKeywords, RVal.strs (p.1.take 10)),
     (kArticles, RVal.arts (articles.take 10)), (kWarnings, RVal.strs warnings)]

/-- Look up a string-list field of a record. -/
def recStrs (r : Record) (k : Str) : List Str :=
  match r.find? (fun q => decide (q.1 = k)) with
  | some (_, RVal.strs l) => l
  | _ => []

/-- Look up an article-list field of a record. -/
def recArtList (r : Record) (k : Str) : List Article :=
  match r.find? (fun q => decide (q.1 = k)) with
  | some (_, RVal.arts l) => l
  | _ => []

/-- The keywords field of a record. -/
def recKeywords (r : Record) : List Str := recStrs r kKeywords

/-- The warnings field of a record. -/
def recWarnings (r : Record) : List Str := recStrs r kWarnings

/-- The articles field of a record. -/
def recArticles (r : Record) : List Article := recArtList r kArticles

/-- Demonstration anchors whose titles yield surviving fallback tokens. -/
def demoAnchors : List Anchor :=
  (List.range 10).map
    (fun i => ⟨"경제 위기 심화 기사".data, some ("/article/00".data ++ [Char.ofNat (48 + i)])⟩)

/-- Demonstration page serving the anchors on the first selector. -/
def demoPage : Page :=
  fun sel => if sel = ".rankingnews_list .list_title".data then demoAnchors else []

/-- Demonstration driver: the trending page fails, the ranking pages render. -/
def demoDriver : Driver := ⟨TrendsPage.fail, fun _ => some demoPage⟩

/-- Anchors whose titles consist only of stop words. -/
def stopAnchors : List Anchor :=
  (List.range 10).map
    (fun i => ⟨"속보 속보 속보".data, some ("/article/00".data ++ [Char.ofNat (48 + i)])⟩)

/-- Page serving the stop-word anchors. -/
def stopPage : Page :=
  fun sel => if sel = ".rankingnews_list .list_title".data then stopAnchors else []

/-- Driver whose articles produce no fallback keywords. -/
def stopDriver : Driver := ⟨TrendsPage.fail, fun _ => some stopPage⟩

/-- Driver whose scraping yields nothing at all. -/
def emptyDriver : Driver := ⟨TrendsPage.fail, fun _ => none⟩

/-- A fixed timestamp for the concrete evaluations. -/
def demoNow : Str := "2024-01-01T00:00:00+00:00".data

/-- The keyword/warning pair assembled by collect on the working-driver
path, as a function of the driver. -/
def okKeywords (d : Driver) : List Str × List Str :=
  assembleKeywords (scrape_realtime_keywords d.trends)
    (derive_keywords_from_articles (scrape_popular_articles d.fetch))

theorem isPrefixOf_exists_append {p l : Str} (h : p.isPrefixOf l = true) :
    ∃ t, l = p ++ t := by
  induction p generalizing l with
  | nil => exact ⟨l, rfl⟩
  | cons c p ih =>
    cases l with
    | nil => simp [List.isPrefixOf] at h
    | cons d l =>
      rw [List.isPrefixOf_cons₂, Bool.and_eq_true, beq_iff_eq] at h
      obtain ⟨rfl, h2⟩ := h
      obtain ⟨t, rfl⟩ := ih h2
      exact ⟨t, rfl⟩

theorem isPrefixOf_append_self (p t : Str) : p.isPrefixOf (p ++ t) = true := by
  induction p with
  | nil => simp
  | cons c p ih => rw [List.cons_append, List.isPrefixOf_cons₂]; simp [ih]

theorem nah_https_append (t : Str) :
    normalize_article_href ("https://".data ++ t) = "https://".data ++ t := by
  rw [normalize_article_href, if_neg, if_pos]
  · simp [isPrefixOf_append_self]
  · intro h
    rw [List.append_eq_nil] at h
    exact absurd h.1 (by decide)

/-- C9: normalize_article_href is idempotent: for every input string
(covering the absolute, protocol-relative, root-relative and bare shapes
as well as the empty string), applying it twice yields the same result as
applying it once. -/
theorem normalize_article_href_idem (href : Str) :
    normalize_article_href (normalize_article_href href) = normalize_article_href href := by
  by_cases h0 : href = []
  · subst h0; rfl
  · by_cases h1 : ("http://".data).isPrefixOf href || ("https://".data).isPrefixOf href
    · have hv : normalize_article_href href = href := by
        rw [normalize_article_href, if_neg h0, if_pos h1]
      rw [hv]; exact hv
    · by_cases h2 : ("//".data).isPrefixOf href = true
      · have hv : normalize_article_href href = "https:".data ++ href := by
          rw [normalize_article_href, if_neg h0, if_neg h1, if_pos h2]
        rw [hv]
        obtain ⟨t, rfl⟩ := isPrefixOf_exists_append h2
        show normalize_article_href ("https://".data ++ t) = "https://".data ++ t
        exact nah_https_append t
      · by_cases h3 : ("/".data).isPrefixOf href = true
        · have hv : normalize_article_href href = "https://news.naver.com".data ++ href := by
            rw [normalize_article_href, if_neg h0, if_neg h1, if_neg h2, if_pos h3]
          rw [hv]
          show normalize_article_href ("https://".data ++ ("news.naver.com".data ++ href))
              = "https://".data ++ ("news.naver.com".data ++ href)
          exact nah_https_append _
        · have hv : normalize_article_href href = "https://news.naver.com/".data ++ href := by
            rw [normalize_article_href, if_neg h0, if_neg h1, if_neg h2, if_neg h3]
          rw [hv]
          show normalize_article_href ("https://".data ++ ("news.naver.com/".data ++ href))
              = "https://".data ++ ("news.naver.com/".data ++ href)
          exact nah_https_append _

theorem keyDedupFrom_nodup_not_mem {α β : Type} [DecidableEq β] (k : α → β) :
    ∀ (l : List α) (seen : List β),
      ((keyDedupFrom k seen l).map k).Nodup ∧ ∀ a ∈ keyDedupFrom k seen l, k a ∉ seen := by
  intro l
  induction l with
  | nil => intro seen; simp [keyDedupFrom]
  | cons a l ih =>
    intro seen
    by_cases h : k a ∈ seen
    · simpa [keyDedupFrom, h] using ih seen
    · constructor
      · simp only [keyDedupFrom, if_neg h, List.map_cons, List.nodup_cons]
        refine ⟨?_, (ih (k a :: seen)).1⟩
        intro hmem
        rw [List.mem_map] at hmem
        obtain ⟨b, hb, hkb⟩ := hmem
        exact (ih (k a :: seen)).2 b hb (by rw [hkb]; exact List.mem_cons_self _ _)
      · intro x hx
        simp only [keyDedupFrom, if_neg h] at hx
        rcases List.mem_cons.mp hx with hx1 | hx2
        · rw [hx1]; exact h
        · intro hxs
          exact (ih (k a :: seen)).2 x hx2 (List.mem_cons_of_mem _ hxs)

theorem keyDedupFrom_sublist {α β : Type} [DecidableEq β] (k : α → β) :
    ∀ (l : List α) (seen : List β), List.Sublist (keyDedupFrom k seen l) l := by
  intro l
  induction l with
  | nil => intro seen; simp [keyDedupFrom]
  | cons a l ih =>
    intro seen
    simp only [keyDedupFrom]
    split
    · exact (ih seen).trans (List.sublist_cons_self a l)
    · exact List.Sublist.cons₂ a (ih _)

theorem keyDedupFrom_congr_seen {α β : Type} [DecidableEq β] (k : α → β) :
    ∀ (l : List α) (s1 s2 : List β), (∀ b, b ∈ s1 ↔ b ∈ s2) →
      keyDedupFrom k s1 l = keyDedupFrom k s2 l := by
  intro l
  induction l with
  | nil => intro s1 s2 h; rfl
  | cons a l ih =>
    intro s1 s2 h
    simp only [keyDedupFrom]
    by_cases hm : k a ∈ s1
    · rw [if_pos hm, if_pos ((h _).mp hm)]
      exact ih s1 s2 h
    · rw [if_neg hm, if_neg (fun hc => hm ((h _).mpr hc))]
      congr 1
      apply ih
      intro b
      simp [h b]

theorem uniqueTopGo_eq :
    ∀ (vs : List Str) (limit : Nat) (out seen : List Str), out.length < limit →
      uniqueTopGo limit out seen vs = (out ++ normDedupFrom seen vs).take limit := by
  intro vs
  induction vs with
  | nil =>
    intro limit out seen h
    simp only [uniqueTopGo, normDedupFrom, List.append_nil]
    exact (List.take_of_length_le (Nat.le_of_lt h)).symm
  | cons v vs ih =>
    intro limit out seen h
    simp only [uniqueTopGo, normDedupFrom]
    by_cases hskip : normalizeWs v = [] ∨ normalizeWs v ∈ seen
    · rw [if_pos hskip, if_pos hskip]
      exact ih limit out seen h
    · rw [if_neg hskip, if_neg hskip]
      by_cases hstop : limit ≤ (out ++ [normalizeWs v]).length
      · rw [if_pos hstop]
        have hlen : out.length + 1 = limit := by
          simp only [List.length_append, List.length_singleton] at hstop
          omega
        rw [List.take_append_eq_append_take, List.take_of_length_le (Nat.le_of_lt h)]
        have : limit - out.length = 1 := by omega
        rw [this]
        simp
      · rw [if_neg hstop]
        rw [ih limit (out ++ [normalizeWs v]) (normalizeWs v :: seen)
          (by simp only [List.length_append, List.length_singleton] at hstop ⊢; omega)]
        simp

theorem normDedupFrom_eq :
    ∀ (vs seen : List Str),
      normDedupFrom seen vs
        = keyDedupFrom id seen ((vs.map normalizeWs).filter (fun t => ¬ t = [])) := by
  intro vs
  induction vs with
  | nil => intro seen; rfl
  | cons v vs ih =>
    intro seen
    simp only [normDedupFrom, List.map_cons, List.filter_cons]
    by_cases hnil : normalizeWs v = []
    · rw [if_pos (Or.inl hnil)]
      have hd : (decide ¬(normalizeWs v = [])) = false := by simp [hnil]
      simp only [hd, Bool.false_eq_true, if_false]
      exact ih seen
    · have hkeep : (decide ¬(normalizeWs v = [])) = true := by simp [hnil]
      simp only [hkeep, if_true]
      by_cases hseen : normalizeWs v ∈ seen
      · rw [if_pos (Or.inr hseen)]
        simp only [keyDedupFrom, id]
        rw [if_pos hseen]
        exact ih seen
      · rw [if_neg (by tauto)]
        simp only [keyDedupFrom, id]
        rw [if_neg hseen]
        rw [ih (normalizeWs v :: seen)]

/-- C3 counterexample: at limit 0 the claim fails, since unique_top
appends an element before testing the length bound and therefore returns
one element. -/
theorem unique_top_limit_zero_cex :
    ¬ ((unique_top ["a".data] 0).length ≤ 0) := by decide

/-- C3 (amended): for every input sequence of strings and every limit
n that is at least 1, unique_top returns at most n elements, each a
non-empty normalised value of an input element, pairwise distinct, and
ordered by first occurrence among the non-empty normalised values of the
input. -/
theorem unique_top_spec (values : List Str) (n : Nat) (hn : 1 ≤ n) :
    (unique_top values n).length ≤ n ∧
    (∀ t ∈ unique_top values n, t ≠ [] ∧ ∃ v ∈ values, t = normalizeWs v) ∧
    (unique_top values n).Nodup ∧
    unique_top values n
      = (keyDedupFrom id [] ((values.map normalizeWs).filter (fun t => ¬ t = []))).take n := by
  have he : unique_top values n
      = (keyDedupFrom id [] ((values.map normalizeWs).filter (fun t => ¬ t = []))).take n := by
    rw [unique_top, uniqueTopGo_eq values n [] []
      (by simp only [List.length_nil]; omega), List.nil_append, normDedupFrom_eq]
  refine ⟨?_, ?_, ?_, he⟩
  · rw [he, List.length_take]
    exact Nat.min_le_left _ _
  · intro t ht
    rw [he] at ht
    have h1 : t ∈ keyDedupFrom id [] ((values.map normalizeWs).filter (fun t => ¬ t = [])) :=
      (List.take_sublist _ _).mem ht
    have h2 : t ∈ (values.map normalizeWs).filter (fun t => ¬ t = []) :=
      (keyDedupFrom_sublist id _ _).mem h1
    rw [List.mem_filter] at h2
    obtain ⟨hmem, hne⟩ := h2
    rw [List.mem_map] at hmem
    obtain ⟨v, hv, hveq⟩ := hmem
    exact ⟨by simpa using hne, v, hv, hveq.symm⟩
  · rw [he]
    apply List.Sublist.nodup (List.take_sublist _ _)
    have := (keyDedupFrom_nodup_not_mem id
      ((values.map normalizeWs).filter (fun t => ¬ t = [])) []).1
    rwa [List.map_id] at this

/-- Witness for the amended C3 at concrete input. -/
theorem unique_top_spec_witness :
    1 ≤ (1 : Nat) ∧
    ((unique_top ["a ".data, "a".data, "b".data] 1).length ≤ 1 ∧
      (∀ t ∈ unique_top ["a ".data, "a".data, "b".data] 1,
        t ≠ [] ∧ ∃ v ∈ ["a ".data, "a".data, "b".data], t = normalizeWs v) ∧
      (unique_top ["a ".data, "a".data, "b".data] 1).Nodup ∧
      unique_top ["a ".data, "a".data, "b".data] 1
        = (keyDedupFrom id []
            (((["a ".data, "a".data, "b".data].map normalizeWs)).filter
              (fun t => ¬ t = []))).take 1) :=
  ⟨by decide, unique_top_spec ["a ".data, "a".data, "b".data] 1 (by decide)⟩

theorem dedupScan_append (l1 l2 : List Article) :
    ∀ (acc : List Article) (seen : List (Str × Str)),
      dedupScan acc seen (l1 ++ l2)
        = match dedupScan acc seen l1 with
          | Sum.inl st => dedupScan st.1 st.2 l2
          | Sum.inr d => Sum.inr d := by
  induction l1 with
  | nil => intro acc seen; rfl
  | cons item rest ih =>
    intro acc seen
    simp only [List.cons_append, dedupScan]
    by_cases h1 : artKey item ∈ seen
    · rw [if_pos h1, if_pos h1]
      exact ih acc seen
    · rw [if_neg h1, if_neg h1]
      by_cases h2 : 10 ≤ (acc ++ [item]).length
      · rw [if_pos h2, if_pos h2]
      · rw [if_neg h2, if_neg h2]
        exact ih _ _

theorem specSelGo_eq (page : Page) :
    ∀ (sels : List Str) (acc : List Article) (seen : List (Str × Str)),
      specSelGo page sels acc seen
        = dedupScan acc seen (sels.flatMap (fun sel => (page sel).filterMap processAnchor)) := by
  intro sels
  induction sels with
  | nil => intro acc seen; rfl
  | cons sel rest ih =>
    intro acc seen
    simp only [specSelGo, List.flatMap_cons]
    rw [dedupScan_append]
    cases hd : dedupScan acc seen ((page sel).filterMap processAnchor) with
    | inl st => exact ih st.1 st.2
    | inr d => rfl

theorem scrapeGo_cons_none {fetch : Str → Option Page} {url : Str} {rest : List Str}
    (hf : fetch url = none) : scrapeGo fetch (url :: rest) = scrapeGo fetch rest := by
  simp only [scrapeGo, hf]

theorem scrapeGo_cons_some_inl {fetch : Str → Option Page} {url : Str} {rest : List Str}
    {page : Page} {st : List Article × List (Str × Str)} (hf : fetch url = some page)
    (hd : dedupScan [] [] (rawOf page) = Sum.inl st) :
    scrapeGo fetch (url :: rest) = scrapeGo fetch rest := by
  simp only [scrapeGo, hf, hd]

theorem scrapeGo_cons_some_inr {fetch : Str → Option Page} {url : Str} {rest : List Str}
    {page : Page} {d : List Article} (hf : fetch url = some page)
    (hd : dedupScan [] [] (rawOf page) = Sum.inr d) :
    scrapeGo fetch (url :: rest) = d := by
  simp only [scrapeGo, hf, hd]

theorem specUrlGo_cons_none {fetch : Str → Option Page} {url : Str} {rest : List Str}
    (hf : fetch url = none) : specUrlGo fetch (url :: rest) = specUrlGo fetch rest := by
  simp only [specUrlGo, hf]

theorem specUrlGo_cons_some {fetch : Str → Option Page} {url : Str} {rest : List Str}
    {page : Page} (hf : fetch url = some page) :
    specUrlGo fetch (url :: rest)
      = match specSelGo page selectors [] [] with
        | Sum.inr d => d
        | Sum.inl _ => specUrlGo fetch rest := by
  simp only [specUrlGo, hf]

theorem specUrlGo_eq (fetch : Str → Option Page) :
    ∀ us, specUrlGo fetch us = scrapeGo fetch us := by
  intro us
  induction us with
  | nil => rfl
  | cons url rest ih =>
    cases hf : fetch url with
    | none => rw [specUrlGo_cons_none hf, scrapeGo_cons_none hf]; exact ih
    | some page =>
      rw [specUrlGo_cons_some hf, specSelGo_eq page selectors [] []]
      rw [show selectors.flatMap (fun sel => (page sel).filterMap processAnchor)
            = rawOf page from rfl]
      cases hd : dedupScan [] [] (rawOf page) with
      | inl st =>
        rw [scrapeGo_cons_some_inl hf hd]
        show specUrlGo fetch rest = scrapeGo fetch rest
        exact ih
      | inr d =>
        rw [scrapeGo_cons_some_inr hf hd]

/-- C2: the article extractor behaves exactly as the specification model:
per URL, matches are accumulated across the selector list into a
deduplicated-by-(title, href) first-seen-order list that is returned
immediately once it reaches 10 entries; results are never merged across
URLs, and when no URL produces such a list the result is empty. -/
theorem scrape_popular_articles_matches_spec_model (fetch : Str → Option Page) :
    scrapePopularArticlesSpecModel fetch = scrape_popular_articles fetch :=
  specUrlGo_eq fetch urls

theorem dedupScan_characterize :
    ∀ (l acc : List Article) (seen : List (Str × Str)), acc.length < 10 →
      (10 ≤ acc.length + (keyDedupFrom artKey seen l).length ∧
        dedupScan acc seen l = Sum.inr ((acc ++ keyDedupFrom artKey seen l).take 10)) ∨
      (acc.length + (keyDedupFrom artKey seen l).length < 10 ∧
        ∃ st, dedupScan acc seen l = Sum.inl st) := by
  intro l
  induction l with
  | nil =>
    intro acc seen h
    right
    exact ⟨by simpa [keyDedupFrom] using h, ⟨(acc, seen), rfl⟩⟩
  | cons item rest ih =>
    intro acc seen h
    simp only [dedupScan, keyDedupFrom]
    by_cases h1 : artKey item ∈ seen
    · rw [if_pos h1, if_pos h1]
      exact ih acc seen h
    · rw [if_neg h1, if_neg h1]
      by_cases h2 : 10 ≤ (acc ++ [item]).length
      · have hlen : acc.length = 9 := by
          simp only [List.length_append, List.length_singleton] at h2
          omega
        rw [if_pos h2]
        left
        constructor
        · simp only [List.length_cons]
          omega
        · congr 1
          rw [List.take_append_eq_append_take,
            List.take_of_length_le (by omega : acc.length ≤ 10)]
          have h10 : 10 - acc.length = 1 := by omega
          rw [h10]
          simp
      · rw [if_neg h2]
        have h2lt : (acc ++ [item]).length < 10 := by omega
        rcases ih (acc ++ [item]) (artKey item :: seen) h2lt with ⟨ha, hb⟩ | ⟨ha, hb⟩
        · left
          constructor
          · simp only [List.length_append, List.length_singleton] at ha
            simp only [List.length_cons]
            omega
          · rw [hb]
            congr 2
            simp
        · right
          refine ⟨?_, hb⟩
          simp only [List.length_append, List.length_singleton] at ha
          simp only [List.length_cons]
          omega

theorem scrapeGo_cases (fetch : Str → Option Page) :
    ∀ us, scrapeGo fetch us = [] ∨
      ∃ page, (∃ url ∈ us, fetch url = some page) ∧
        10 ≤ (keyDedupFrom artKey [] (rawOf page)).length ∧
        scrapeGo fetch us = (keyDedupFrom artKey [] (rawOf page)).take 10 := by
  intro us
  induction us with
  | nil => exact Or.inl rfl
  | cons url rest ih =>
    cases hf : fetch url with
    | none =>
      rw [scrapeGo_cons_none hf]
      rcases ih with hnil | ⟨page, ⟨u, hu, hfu⟩, hlen, he⟩
      · exact Or.inl hnil
      · exact Or.inr ⟨page, ⟨u, List.mem_cons_of_mem _ hu, hfu⟩, hlen, he⟩
    | some page =>
      rcases dedupScan_characterize (rawOf page) [] [] (by simp) with ⟨ha, hb⟩ | ⟨ha, hb⟩
      · rw [scrapeGo_cons_some_inr hf hb]
        right
        refine ⟨page, ⟨url, List.mem_cons_self _ _, hf⟩, by simpa using ha, by simp⟩
      · obtain ⟨st, hb⟩ := hb
        rw [scrapeGo_cons_some_inl hf hb]
        rcases ih with hnil | ⟨page2, ⟨u, hu, hfu⟩, hlen, he⟩
        · exact Or.inl hnil
        · exact Or.inr ⟨page2, ⟨u, List.mem_cons_of_mem _ hu, hfu⟩, hlen, he⟩

theorem processAnchor_some {x : Anchor} {a : Article} (h : processAnchor x = some a) :
    4 ≤ a.title.length ∧ isSubstrOf articleMarker a.href = true := by
  unfold processAnchor at h
  by_cases h4 : (normalizeWs x.text).length < 4
  · rw [if_pos h4] at h
    exact absurd h (by simp)
  · rw [if_neg h4] at h
    by_cases hi : isSubstrOf articleMarker (normalize_article_href (x.href.getD [])) = true
    · rw [if_pos hi] at h
      injection h with h
      subst h
      exact ⟨by show 4 ≤ (normalizeWs x.text).length; omega, hi⟩
    · rw [if_neg hi] at h
      exact absurd h (by simp)

theorem rawOf_mem {page : Page} {a : Article} (h : a ∈ rawOf page) :
    4 ≤ a.title.length ∧ isSubstrOf articleMarker a.href = true := by
  rw [rawOf, List.mem_flatMap] at h
  obtain ⟨sel, hsel, hmem⟩ := h
  rw [List.mem_filterMap] at hmem
  obtain ⟨x, hx, hpx⟩ := hmem
  exact processAnchor_some hpx

/-- C1: every list returned by the article extractor has at most 10
entries, every entry has a title of length at least 4 and an href
containing the article marker, and the entries are pairwise distinct by
the (title, href) pair and listed in first-seen order (the list is a
deduplicated-by-key first-occurrence cut of one page's raw matches). -/
theorem scrape_popular_articles_invariants (fetch : Str → Option Page) :
    (scrape_popular_articles fetch).length ≤ 10 ∧
    (∀ a ∈ scrape_popular_articles fetch,
      4 ≤ a.title.length ∧ isSubstrOf articleMarker a.href = true) ∧
    ((scrape_popular_articles fetch).map artKey).Nodup ∧
    (scrape_popular_articles fetch = [] ∨
      ∃ page, (∃ url ∈ urls, fetch url = some page) ∧
        scrape_popular_articles fetch = (keyDedupFrom artKey [] (rawOf page)).take 10) := by
  rcases scrapeGo_cases fetch urls with h | ⟨page, hup, hlen, heq⟩
  · have he : scrape_popular_articles fetch = [] := h
    rw [he]
    exact ⟨by simp, by simp, by simp, Or.inl rfl⟩
  · have he : scrape_popular_articles fetch = (keyDedupFrom artKey [] (rawOf page)).take 10 := heq
    refine ⟨?_, ?_, ?_, Or.inr ⟨page, hup, he⟩⟩
    · rw [he, List.length_take]
      exact Nat.min_le_left _ _
    · intro a ha
      rw [he] at ha
      exact rawOf_mem ((keyDedupFrom_sublist artKey _ _).mem ((List.take_sublist _ _).mem ha))
    · rw [he, List.map_take]
      exact List.Sublist.nodup (List.take_sublist _ _)
        (keyDedupFrom_nodup_not_mem artKey (rawOf page) []).1

/-- C10: for every rendering oracle, the article extractor returns either
exactly 10 entries or the empty list, never a list of 1 to 9 entries. -/
theorem scrape_popular_articles_ten_or_empty (fetch : Str → Option Page) :
    scrape_popular_articles fetch = [] ∨ (scrape_popular_articles fetch).length = 10 := by
  rcases scrapeGo_cases fetch urls with h | ⟨page, _, hlen, heq⟩
  · exact Or.inl h
  · right
    have he : scrape_popular_articles fetch = (keyDedupFrom artKey [] (rawOf page)).take 10 := heq
    rw [he, List.length_take]
    omega

theorem count_cons_self_str (w : Str) (l : List Str) : (w :: l).count w = l.count w + 1 := by
  simp [List.count_cons]

theorem count_cons_ne_str {u w : Str} (h : u ≠ w) (l : List Str) :
    (w :: l).count u = l.count u := by
  simp [List.count_cons, h]

theorem bump_not_mem {w : Str} :
    ∀ {acc : List (Str × Nat)}, w ∉ acc.map Prod.fst → bump w acc = acc ++ [(w, 1)] := by
  intro acc
  induction acc with
  | nil => intro _; rfl
  | cons p rest ih =>
    intro h
    simp only [List.map_cons, List.mem_cons] at h
    push_neg at h
    obtain ⟨h1, h2⟩ := h
    cases p with
    | mk x n =>
      simp only [bump]
      rw [if_neg (fun he => h1 he.symm), List.cons_append]
      congr 1
      exact ih h2

theorem bump_fst_mem {w : Str} :
    ∀ {acc : List (Str × Nat)}, w ∈ acc.map Prod.fst →
      (bump w acc).map Prod.fst = acc.map Prod.fst := by
  intro acc
  induction acc with
  | nil => intro h; simp at h
  | cons p rest ih =>
    intro h
    cases p with
    | mk x n =>
      simp only [bump]
      by_cases hx : x = w
      · rw [if_pos hx]
        simp
      · rw [if_neg hx]
        simp only [List.map_cons, List.mem_cons] at h ⊢
        rcases h with h1 | h2
        · exact absurd h1.symm hx
        · rw [ih h2]

theorem bump_fst_nodup {w : Str} {acc : List (Str × Nat)} (h : (acc.map Prod.fst).Nodup) :
    ((bump w acc).map Prod.fst).Nodup := by
  by_cases hw : w ∈ acc.map Prod.fst
  · rw [bump_fst_mem hw]
    exact h
  · rw [bump_not_mem hw, List.map_append, List.nodup_append]
    refine ⟨h, by simp, ?_⟩
    intro a ha hae
    simp only [List.map_cons, List.map_nil, List.mem_singleton] at hae
    exact hw (hae ▸ ha)

theorem bump_map_count_mem (w : Str) (toks : List Str) :
    ∀ {acc : List (Str × Nat)}, (acc.map Prod.fst).Nodup → w ∈ acc.map Prod.fst →
      (bump w acc).map (fun p => (p.1, p.2 + toks.count p.1))
        = acc.map (fun p => (p.1, p.2 + (w :: toks).count p.1)) := by
  intro acc
  induction acc with
  | nil => intro _ h; simp at h
  | cons p rest ih =>
    intro hnodup h
    simp only [List.map_cons, List.nodup_cons] at hnodup
    obtain ⟨hp1, hp2⟩ := hnodup
    cases p with
    | mk x n =>
      simp only [bump]
      by_cases hx : x = w
      · rw [if_pos hx]
        subst hx
        simp only [List.map_cons]
        congr 1
        · show (x, n + 1 + toks.count x) = (x, n + (x :: toks).count x)
          rw [count_cons_self_str]
          simp only [Prod.mk.injEq, true_and]
          omega
        · apply List.map_congr_left
          intro q hq
          have hqx : q.1 ≠ x := by
            intro he
            have hmq : q.1 ∈ rest.map Prod.fst := List.mem_map_of_mem Prod.fst hq
            exact hp1 (he ▸ hmq)
          show (q.1, q.2 + toks.count q.1) = (q.1, q.2 + (x :: toks).count q.1)
          rw [count_cons_ne_str hqx]
      · rw [if_neg hx]
        simp only [List.map_cons, List.mem_cons] at h
        rcases h with h1 | h2
        · exact absurd h1.symm hx
        · simp only [List.map_cons]
          congr 1
          · show (x, n + toks.count x) = (x, n + (w :: toks).count x)
            rw [count_cons_ne_str hx]
          · exact ih hp2 h2

theorem map_count_not_mem (w : Str) (toks : List Str) {acc : List (Str × Nat)}
    (h : w ∉ acc.map Prod.fst) :
    acc.map (fun p => (p.1, p.2 + toks.count p.1))
      = acc.map (fun p => (p.1, p.2 + (w :: toks).count p.1)) := by
  apply List.map_congr_left
  intro p hp
  have hpw : p.1 ≠ w := by
    intro he
    have hmp : p.1 ∈ acc.map Prod.fst := List.mem_map_of_mem Prod.fst hp
    exact h (he ▸ hmp)
  rw [count_cons_ne_str hpw]

theorem foldl_bump_eq :
    ∀ (toks : List Str) (acc : List (Str × Nat)), (acc.map Prod.fst).Nodup →
      toks.foldl (fun m w => bump w m) acc
        = acc.map (fun p => (p.1, p.2 + toks.count p.1))
          ++ (keyDedupFrom id (acc.map Prod.fst) toks).map (fun w => (w, toks.count w)) := by
  intro toks
  induction toks with
  | nil =>
    intro acc _
    simp [keyDedupFrom]
  | cons w toks ih =>
    intro acc hnodup
    rw [List.foldl_cons]
    by_cases hw : w ∈ acc.map Prod.fst
    · have hfst : (bump w acc).map Prod.fst = acc.map Prod.fst := bump_fst_mem hw
      rw [ih (bump w acc) (hfst ▸ hnodup), hfst]
      have hdedup : keyDedupFrom id (acc.map Prod.fst) (w :: toks)
          = keyDedupFrom id (acc.map Prod.fst) toks := by
        simp only [keyDedupFrom, id]
        rw [if_pos hw]
      rw [hdedup]
      congr 1
      · exact bump_map_count_mem w toks hnodup hw
      · apply List.map_congr_left
        intro u hu
        have hus : u ∉ acc.map Prod.fst :=
          (keyDedupFrom_nodup_not_mem id toks (acc.map Prod.fst)).2 u hu
        have huw : u ≠ w := fun he => hus (he ▸ hw)
        rw [count_cons_ne_str huw]
    · have hb : bump w acc = acc ++ [(w, 1)] := bump_not_mem hw
      have hfst : (bump w acc).map Prod.fst = acc.map Prod.fst ++ [w] := by
        rw [hb, List.map_append]
        rfl
      rw [ih (bump w acc) (bump_fst_nodup hnodup), hfst, hb]
      have hdedup : keyDedupFrom id (acc.map Prod.fst) (w :: toks)
          = w :: keyDedupFrom id (w :: acc.map Prod.fst) toks := by
        simp only [keyDedupFrom, id]
        rw [if_neg hw]
      rw [hdedup]
      have hseen : keyDedupFrom id (acc.map Prod.fst ++ [w]) toks
          = keyDedupFrom id (w :: acc.map Prod.fst) toks := by
        apply keyDedupFrom_congr_seen
        intro b
        simp [List.mem_append, List.mem_cons, or_comm]
      rw [hseen, List.map_append, map_count_not_mem w toks hw, List.append_assoc]
      congr 1
      simp only [List.map_cons, List.map_nil, List.singleton_append]
      congr 1
      · show (w, 1 + toks.count w) = (w, (w :: toks).count w)
        rw [count_cons_self_str]
        simp only [Prod.mk.injEq, true_and]
        omega
      · apply List.map_congr_left
        intro u hu
        have hus : u ∉ w :: acc.map Prod.fst :=
          (keyDedupFrom_nodup_not_mem id toks _).2 u hu
        have huw : u ≠ w := fun he => hus (he ▸ List.mem_cons_self _ _)
        rw [count_cons_ne_str huw]

theorem countStep_foldl :
    ∀ (l : List Str) (acc : List (Str × Nat)),
      l.foldl countStep acc
        = ((l.map pyStrip).filter (fun w => ¬(w.length < 2 ∨ w ∈ stopWords))).foldl
            (fun m w => bump w m) acc := by
  intro l
  induction l with
  | nil => intro acc; rfl
  | cons w l ih =>
    intro acc
    rw [List.foldl_cons]
    simp only [List.map_cons, List.filter_cons]
    by_cases hc : (pyStrip w).length < 2 ∨ pyStrip w ∈ stopWords
    · have hd : (decide ¬((pyStrip w).length < 2 ∨ pyStrip w ∈ stopWords)) = false := by
        simp [hc]
      rw [hd]
      simp only [Bool.false_eq_true, if_false]
      rw [show countStep acc w = acc from by rw [countStep, if_pos hc]]
      exact ih acc
    · have hd : (decide ¬((pyStrip w).length < 2 ∨ pyStrip w ∈ stopWords)) = true := by
        simp [hc]
      rw [hd]
      simp only [if_true]
      rw [List.foldl_cons]
      rw [show countStep acc w = bump (pyStrip w) acc from by rw [countStep, if_neg hc]]
      exact ih _

theorem nested_foldl :
    ∀ (articles : List Article) (init : List (Str × Nat)),
      articles.foldl (fun acc a => (tokenizeTitle a.title).foldl countStep acc) init
        = ((articles.map (fun a => a.title)).flatMap tokenizeTitle).foldl countStep init := by
  intro articles
  induction articles with
  | nil => intro init; rfl
  | cons a articles ih =>
    intro init
    rw [List.foldl_cons]
    simp only [List.map_cons, List.flatMap_cons]
    rw [List.foldl_append]
    exact ih _

theorem mem_insertByCount {x p : Str × Nat} :
    ∀ {l : List (Str × Nat)}, x ∈ insertByCount p l ↔ x = p ∨ x ∈ l := by
  intro l
  induction l with
  | nil => simp [insertByCount]
  | cons q rest ih =>
    simp only [insertByCount]
    by_cases hc : q.2 ≤ p.2
    · rw [if_pos hc]
      simp only [List.mem_cons]
    · rw [if_neg hc]
      simp only [List.mem_cons, ih]
      tauto

theorem mem_sortByCountDesc {x : Str × Nat} :
    ∀ {l : List (Str × Nat)}, x ∈ sortByCountDesc l ↔ x ∈ l := by
  intro l
  induction l with
  | nil => simp [sortByCountDesc]
  | cons p rest ih =>
    simp only [sortByCountDesc, mem_insertByCount, ih, List.mem_cons]

theorem pairwise_insertByCount {p : Str × Nat} {l : List (Str × Nat)}
    (h : l.Pairwise (fun a b => b.2 ≤ a.2)) :
    (insertByCount p l).Pairwise (fun a b => b.2 ≤ a.2) := by
  induction l with
  | nil => simp [insertByCount]
  | cons q rest ih =>
    rw [List.pairwise_cons] at h
    obtain ⟨hq, hrest⟩ := h
    simp only [insertByCount]
    by_cases hc : q.2 ≤ p.2
    · rw [if_pos hc, List.pairwise_cons]
      refine ⟨?_, List.pairwise_cons.mpr ⟨hq, hrest⟩⟩
      intro x hx
      rcases List.mem_cons.mp hx with he | hx2
      · rw [he]
        exact hc
      · exact le_trans (hq x hx2) hc
    · rw [if_neg hc, List.pairwise_cons]
      refine ⟨?_, ih hrest⟩
      intro x hx
      rcases mem_insertByCount.mp hx with he | hx2
      · rw [he]
        omega
      · exact hq x hx2

theorem sortByCountDesc_pairwise :
    ∀ (l : List (Str × Nat)), (sortByCountDesc l).Pairwise (fun a b => b.2 ≤ a.2) := by
  intro l
  induction l with
  | nil => simp [sortByCountDesc]
  | cons p rest ih => exact pairwise_insertByCount ih

theorem counts_eq_tokenCounts (articles : List Article) :
    articles.foldl (fun acc a => (tokenizeTitle a.title).foldl countStep acc) []
      = tokenCounts articles := by
  rw [nested_foldl, countStep_foldl, foldl_bump_eq _ [] (by simp)]
  simp only [List.map_nil, List.nil_append]
  rw [tokenCounts, survivingTokens]

/-- C4: the fallback keyword deriver tokenises each title after replacing
characters other than ASCII letters and digits, Korean syllables and
whitespace, discards tokens shorter than 2 characters or in the stop-word
set, and returns the words of the 10 most frequent surviving tokens, ties
broken by first-encountered order: its output equals the take-10 of the
stable descending sort of the first-encounter token counts. -/
theorem derive_keywords_from_articles_spec (articles : List Article) :
    derive_keywords_from_articles articles
      = ((sortByCountDesc (tokenCounts articles)).take 10).map Prod.fst ∧
    (derive_keywords_from_articles articles).length ≤ 10 ∧
    (sortByCountDesc (tokenCounts articles)).Pairwise (fun p q => q.2 ≤ p.2) ∧
    ∀ w ∈ derive_keywords_from_articles articles,
      2 ≤ w.length ∧ w ∉ stopWords ∧ w ∈ survivingTokens articles := by
  have he : derive_keywords_from_articles articles
      = ((sortByCountDesc (tokenCounts articles)).take 10).map Prod.fst := by
    rw [derive_keywords_from_articles, counts_eq_tokenCounts]
  refine ⟨he, ?_, sortByCountDesc_pairwise _, ?_⟩
  · rw [he, List.length_map, List.length_take]
    exact Nat.min_le_left _ _
  · intro w hw
    rw [he, List.mem_map] at hw
    obtain ⟨p, hp, hpe⟩ := hw
    have hp2 : p ∈ sortByCountDesc (tokenCounts articles) := (List.take_sublist _ _).mem hp
    have hp3 : p ∈ tokenCounts articles := mem_sortByCountDesc.mp hp2
    rw [tokenCounts, List.mem_map] at hp3
    obtain ⟨u, hu, hue⟩ := hp3
    have hpu : w = u := by rw [← hpe, ← hue]
    have hu2 : u ∈ survivingTokens articles := (keyDedupFrom_sublist id _ _).mem hu
    have hu3 := hu2
    rw [survivingTokens] at hu3
    have hcond := (List.mem_filter.mp hu3).2
    rw [decide_eq_true_eq] at hcond
    push_neg at hcond
    rw [hpu]
    exact ⟨by omega, hcond.2, hu2⟩

theorem take10_eq_nil {α : Type} {l : List α} (h : l.take 10 = []) : l = [] := by
  cases l with
  | nil => rfl
  | cons a t => simp at h

theorem derive_length_le (articles : List Article) :
    (derive_keywords_from_articles articles).length ≤ 10 := by
  rw [derive_keywords_from_articles, List.length_map, List.length_take]
  exact Nat.min_le_left _ _

theorem recKeywords_ok_eq (d : Driver) (now : Str) :
    recKeywords (collect (BuildOutcome.ok d) now) = (okKeywords d).1.take 10 := rfl

theorem recArticles_ok_eq (d : Driver) (now : Str) :
    recArticles (collect (BuildOutcome.ok d) now)
      = (scrape_popular_articles d.fetch).take 10 := rfl

theorem recWarnings_ok_eq (d : Driver) (now : Str) :
    recWarnings (collect (BuildOutcome.ok d) now)
      = (if scrape_popular_articles d.fetch = []
         then (okKeywords d).2 ++ [wNoArticles] else (okKeywords d).2) := rfl

/-- C8: collect never raises: driver construction failure is absorbed and
reported only through the warnings of the returned record, the result
contains empty keywords and articles with exactly two warnings (failure
description and remediation hint), and the record is fully determined by
the failure message alone, so no scraping step is ever entered. -/
theorem collect_driver_fail_result (msg now : Str) :
    collect (BuildOutcome.fail msg) now
      = [(kKeywords, RVal.strs []), (kArticles, RVal.arts []),
         (kWarnings, RVal.strs [wDriverFail ++ msg, wDriverHint])] ∧
    recKeywords (collect (BuildOutcome.fail msg) now) = [] ∧
    recArticles (collect (BuildOutcome.fail msg) now) = [] ∧
    (recWarnings (collect (BuildOutcome.fail msg) now)).length = 2 :=
  ⟨rfl, rfl, rfl, rfl⟩

/-- C7 (amended): a record produced on the working-driver path has exactly
the fields updatedAt, keywords, articles, warnings, in that order; the
driver-start-failure record has exactly keywords, articles, warnings and
no updatedAt field. -/
theorem collect_fields_amended (b : BuildOutcome) (now : Str) :
    (collect b now).map Prod.fst
      = match b with
        | BuildOutcome.fail _ => [kKeywords, kArticles, kWarnings]
        | BuildOutcome.ok _ => [kUpdatedAt, kKeywords, kArticles, kWarnings] := by
  cases b with
  | fail msg => rfl
  | ok d => rfl

/-- C7 counterexample: on the driver-start-failure path the returned
record has no updatedAt field, so not every exit path carries exactly the
four fields. -/
theorem collect_driver_fail_fields_cex :
    kUpdatedAt ∉ (collect (BuildOutcome.fail "boom".data) demoNow).map Prod.fst := by
  decide

/-- C6: the warnings of every collect result are non-empty whenever its
keywords or its articles are empty, and when both extractors return empty
on a working driver the result has empty keywords, empty articles and at
least two warnings. -/
theorem collect_warnings_nonempty (b : BuildOutcome) (now : Str) :
    (recKeywords (collect b now) = [] ∨ recArticles (collect b now) = [] →
      recWarnings (collect b now) ≠ []) ∧
    (∀ d, b = BuildOutcome.ok d → scrape_realtime_keywords d.trends = [] →
      scrape_popular_articles d.fetch = [] →
      recKeywords (collect b now) = [] ∧ recArticles (collect b now) = [] ∧
        2 ≤ (recWarnings (collect b now)).length) := by
  cases b with
  | fail msg =>
    constructor
    · intro _
      have hwr : recWarnings (collect (BuildOutcome.fail msg) now)
          = [wDriverFail ++ msg, wDriverHint] := rfl
      rw [hwr]
      simp
    · intro d hd
      cases hd
  | ok d =>
    constructor
    · intro hor
      rw [recWarnings_ok_eq]
      by_cases hart : scrape_popular_articles d.fetch = []
      · rw [if_pos hart]
        simp
      · rw [if_neg hart]
        rcases hor with hk0 | ha0
        · rw [recKeywords_ok_eq] at hk0
          have hp1 : (okKeywords d).1 = [] := take10_eq_nil hk0
          by_cases hkw : scrape_realtime_keywords d.trends = []
          · by_cases halt :
                derive_keywords_from_articles (scrape_popular_articles d.fetch) = []
            · have h2 : (okKeywords d).2 = [wNoKeywords] := by
                rw [okKeywords, assembleKeywords, if_pos hkw, if_pos halt]
              rw [h2]
              simp
            · have h1 : (okKeywords d).1
                  = derive_keywords_from_articles (scrape_popular_articles d.fetch) := by
                rw [okKeywords, assembleKeywords, if_pos hkw, if_neg halt]
              rw [h1] at hp1
              exact absurd hp1 halt
          · have h1 : (okKeywords d).1 = scrape_realtime_keywords d.trends := by
              rw [okKeywords, assembleKeywords, if_neg hkw]
            rw [h1] at hp1
            exact absurd hp1 hkw
        · rw [recArticles_ok_eq] at ha0
          exact absurd (take10_eq_nil ha0) hart
    · intro d2 hd hkw hart
      have hdd : d = d2 := by injection hd
      subst hdd
      have halt : derive_keywords_from_articles (scrape_popular_articles d.fetch) = [] := by
        rw [hart]
        rfl
      have h1 : (okKeywords d).1 = [] := by
        rw [okKeywords, assembleKeywords, if_pos hkw, if_pos halt]
      have h2 : (okKeywords d).2 = [wNoKeywords] := by
        rw [okKeywords, assembleKeywords, if_pos hkw, if_pos halt]
      refine ⟨?_, ?_, ?_⟩
      · rw [recKeywords_ok_eq, h1]
        rfl
      · rw [recArticles_ok_eq, hart]
        rfl
      · rw [recWarnings_ok_eq, if_pos hart, h2]
        simp

/-- Witness for C6 at a concrete driver for which both extractors return
empty. -/
theorem collect_warnings_nonempty_witness :
    recWarnings (collect (BuildOutcome.ok emptyDriver) demoNow) ≠ [] ∧
    recKeywords (collect (BuildOutcome.ok emptyDriver) demoNow) = [] ∧
    recArticles (collect (BuildOutcome.ok emptyDriver) demoNow) = [] ∧
    2 ≤ (recWarnings (collect (BuildOutcome.ok emptyDriver) demoNow)).length := by
  have h := collect_warnings_nonempty (BuildOutcome.ok emptyDriver) demoNow
  have h2 := h.2 emptyDriver rfl rfl rfl
  exact ⟨h.1 (Or.inl h2.1), h2.1, h2.2.1, h2.2.2⟩

/-- C5 counterexample: with the trending page failing and ten articles
whose titles consist only of stop words, the keyword extractor returns
empty and the article extractor returns articles, yet the warnings
contain no fallback notice (the no-keywords warning is appended instead),
refuting the claim that warnings then contain exactly one fallback-notice
entry. -/
theorem collect_fallback_cex :
    scrape_realtime_keywords stopDriver.trends = [] ∧
    scrape_popular_articles stopDriver.fetch ≠ [] ∧
    ¬ ((recWarnings (collect (BuildOutcome.ok stopDriver) demoNow)).count wFallback = 1) := by
  refine ⟨rfl, by decide, by decide⟩

/-- C5 (amended): whenever the keyword extractor returns empty and the
article extractor returns at least one article, the result's keywords are
the fallback deriver's output, and when that output is non-empty the
warnings contain exactly one fallback-notice entry (when it is empty, the
no-keywords warning is appended instead and no fallback notice appears). -/
theorem collect_fallback_amended (d : Driver) (now : Str)
    (hkw : scrape_realtime_keywords d.trends = [])
    (hart : scrape_popular_articles d.fetch ≠ []) :
    recKeywords (collect (BuildOutcome.ok d) now)
      = derive_keywords_from_articles (scrape_popular_articles d.fetch) ∧
    (derive_keywords_from_articles (scrape_popular_articles d.fetch) ≠ [] →
      (recWarnings (collect (BuildOutcome.ok d) now)).count wFallback = 1) ∧
    (derive_keywords_from_articles (scrape_popular_articles d.fetch) = [] →
      recWarnings (collect (BuildOutcome.ok d) now) = [wNoKeywords] ∧
      (recWarnings (collect (BuildOutcome.ok d) now)).count wFallback = 0) := by
  by_cases halt : derive_keywords_from_articles (scrape_popular_articles d.fetch) = []
  · have h1 : (okKeywords d).1 = [] := by
      rw [okKeywords, assembleKeywords, if_pos hkw, if_pos halt]
    have h2 : (okKeywords d).2 = [wNoKeywords] := by
      rw [okKeywords, assembleKeywords, if_pos hkw, if_pos halt]
    have hwr : recWarnings (collect (BuildOutcome.ok d) now) = [wNoKeywords] := by
      rw [recWarnings_ok_eq, if_neg hart, h2]
    refine ⟨?_, ?_, ?_⟩
    · rw [recKeywords_ok_eq, halt, h1]
      rfl
    · intro hne
      exact absurd halt hne
    · intro _
      refine ⟨hwr, ?_⟩
      rw [hwr]
      decide
  · have h1 : (okKeywords d).1
        = derive_keywords_from_articles (scrape_popular_articles d.fetch) := by
      rw [okKeywords, assembleKeywords, if_pos hkw, if_neg halt]
    have h2 : (okKeywords d).2 = [wFallback] := by
      rw [okKeywords, assembleKeywords, if_pos hkw, if_neg halt]
    refine ⟨?_, ?_, ?_⟩
    · rw [recKeywords_ok_eq, h1]
      exact List.take_of_length_le (derive_length_le _)
    · intro _
      rw [recWarnings_ok_eq, if_neg hart, h2]
      simp
    · intro he
      exact absurd he halt

/-- Witness for the amended C5 at a concrete driver whose articles yield
non-empty fallback keywords. -/
theorem collect_fallback_amended_witness :
    (scrape_realtime_keywords demoDriver.trends = [] ∧
      scrape_popular_articles demoDriver.fetch ≠ []) ∧
    recKeywords (collect (BuildOutcome.ok demoDriver) demoNow)
      = derive_keywords_from_articles (scrape_popular_articles demoDriver.fetch) ∧
    (recWarnings (collect (BuildOutcome.ok demoDriver) demoNow)).count wFallback = 1 := by
  have h := collect_fallback_amended demoDriver demoNow rfl (by decide)
  exact ⟨⟨rfl, by decide⟩, h.1, h.2.1 (by decide)⟩

/-- Witness for C1 at a concrete rendering oracle. -/
theorem scrape_popular_articles_invariants_witness :
    (scrape_popular_articles demoDriver.fetch).length ≤ 10 ∧
    (∀ a ∈ scrape_popular_articles demoDriver.fetch,
      4 ≤ a.title.length ∧ isSubstrOf articleMarker a.href = true) ∧
    ((scrape_popular_articles demoDriver.fetch).map artKey).Nodup ∧
    (scrape_popular_articles demoDriver.fetch = [] ∨
      ∃ page, (∃ url ∈ urls, demoDriver.fetch url = some page) ∧
        scrape_popular_articles demoDriver.fetch
          = (keyDedupFrom artKey [] (rawOf page)).take 10) :=
  scrape_popular_articles_invariants demoDriver.fetch

/-- Witness for C4 at the specification's scenario article. -/
theorem derive_keywords_from_articles_spec_witness :
    derive_keywords_from_articles [⟨"속보 한국 경제 위기 심화".data, "h".data⟩]
      = ((sortByCountDesc
            (tokenCounts [⟨"속보 한국 경제 위기 심화".data, "h".data⟩])).take 10).map
          Prod.fst ∧
    (derive_keywords_from_articles [⟨"속보 한국 경제 위기 심화".data, "h".data⟩]).length ≤ 10 ∧
    (sortByCountDesc
        (tokenCounts [⟨"속보 한국 경제 위기 심화".data, "h".data⟩])).Pairwise
      (fun p q => q.2 ≤ p.2) ∧
    ∀ w ∈ derive_keywords_from_articles [⟨"속보 한국 경제 위기 심화".data, "h".data⟩],
      2 ≤ w.length ∧ w ∉ stopWords ∧
        w ∈ survivingTokens [⟨"속보 한국 경제 위기 심화".data, "h".data⟩] :=
  derive_keywords_from_articles_spec [⟨"속보 한국 경제 위기 심화".data, "h".data⟩]

end Scraper

-- Concrete evaluations of the embedding on the scenario inputs of the
-- specification.
example : "ab".data = ['a', 'b'] := rfl
example : Scraper.normalizeWs "  a   b ".data = "a b".data := by decide
example : Scraper.normalize_article_href "/article/123".data
    = "https://news.naver.com/article/123".data := by decide
example : Scraper.normalize_article_href "//x.com/a".data = "https://x.com/a".data := by decide
example : Scraper.normalize_article_href "http://y.com".data = "http://y.com".data := by decide
example : Scraper.unique_top ["a ".data, " a".data, "b".data, "".data] 10
    = ["a".data, "b".data] := by decide
example : Scraper.unique_top ["a".data] 0 = ["a".data] := by decide
example : Scraper.derive_keywords_from_articles
    [⟨"속보 한국 경제 위기 심화".data, "h".data⟩]
    = ["경제".data, "위기".data, "심화".data] := by decide
example : Scraper.tokenizeTitle "속보! 한국-경제, 위기 심화…".data
    = ["속보".data, "한국".data, "경제".data, "위기".data, "심화".data] := by decide
example :
    Scraper.scrape_popular_articles
      (fun _ => some (fun sel =>
        if sel = ".rankingnews_list .list_title".data then
          (List.range 12).map
            (fun i => ⟨"경제 위기 심화 기사".data,
                       some ("/article/00".data ++ [Char.ofNat (48 + i)])⟩)
        else []))
    = (List.range 10).map
        (fun i => ⟨"경제 위기 심화 기사".data,
                   "https://news.naver.com/article/00".data ++ [Char.ofNat (48 + i)]⟩) := by
  decide
example :
    Scraper.recWarnings (Scraper.collect (Scraper.BuildOutcome.ok
      ⟨Scraper.TrendsPage.fail, fun _ => none⟩) "t".data)
    = [Scraper.wNoKeywords, Scraper.wNoArticles] := by decide
